import Mathlib

/-
Verification of the Statistics-EfficiencyCI numerical core (src/eff_ci.c).

The C file computes the shortest Bayesian central confidence interval for a
binomial efficiency: `efficiency_ci` dispatches on (k, N), with the bisection
searches `search_upper` / `search_lower`, the interval-length objective
`interval`, and the Brent minimizer `brent`.

Embedding conventions:
* C doubles are modelled as exact rationals `ℚ`; C ints as `ℤ`.
* The external primitive `beta_ab` (supplied by a math library, out of scope
  of the repository) is a parameter `β : ℚ → ℚ → ℤ → ℤ → ℚ` of every
  definition that calls it.
* The process-wide globals `GLOBAL_k`, `GLOBAL_N`, `CONFLEVEL` that
  `efficiency_ci` assigns before minimizing and that `interval` reads are
  modelled as explicit parameters of `interval`; `efficiency_ci` passes the
  same `(k, N, conflevel)` it would have stored.
* `brent` hardcodes the objective `interval` in the C source; here it takes
  the objective `f : ℚ → ℚ` as a parameter and `efficiency_ci` passes
  `interval β k N conflevel`, which is exactly the function the globals
  would have produced.
* The fixed iteration caps (50 for the bisections, 100 for Brent) are fuel
  arguments.
* `brent` is instrumented: besides the returned minimum value (`fret`, the
  C return value) and minimizing argument (`xmin`, the C out-parameter), the
  result records every argument at which the objective was evaluated
  (`evals`, head = the initial evaluation at `bx`), whether the convergence
  test fired (`converged`), and whether the non-convergence diagnostic
  `printf("brent: Too many interations\n")` was emitted (`diag`).
-/

namespace EffCI

def kCGOLD : ℚ := 3819660 / 10000000

def kZEPS : ℚ := 1 / 10000000000

/-- The C macro `MYSIGN(a,b) = ((b >= 0) ? fabs(a) : -fabs(a))`. -/
def mysign (a b : ℚ) : ℚ := if 0 ≤ b then |a| else -|a|

/-- The bracket-and-bisect loop of `search_upper` (src/eff_ci.c, lines 92-98):
`test = 0.5*(too_low + too_high); integral = beta_ab(low, test, k, N);
if (integral > c) too_high = test; else too_low = test;
break once |integral - c| <= 1e-15`; the fuel is the number of remaining
loop iterations (50 at the initial call), and the last computed `test` is
returned. -/
def suLoop (β : ℚ → ℚ → ℤ → ℤ → ℚ) (low : ℚ) (k N : ℤ) (c : ℚ) :
    Nat → ℚ → ℚ → ℚ
  | 0, tooLow, tooHigh => (tooLow + tooHigh) / 2
  | n + 1, tooLow, tooHigh =>
    let test := (tooLow + tooHigh) / 2
    let integral := β low test k N
    if n = 0 ∨ |integral - c| ≤ 1 / 1000000000000000 then test
    else if c < integral then suLoop β low k N c n tooLow test
    else suLoop β low k N c n test tooHigh

/-- `search_upper` (src/eff_ci.c, lines 66-101): integral over the maximal
interval `[low, 1]`; `== c` returns 1 (lucky), `< c` returns the sentinel -1,
otherwise 50 rounds of bisection between `too_low = low` and `too_high = 1`. -/
def search_upper (β : ℚ → ℚ → ℤ → ℤ → ℚ) (low : ℚ) (k N : ℤ) (c : ℚ) : ℚ :=
  let integral := β low 1 k N
  if integral = c then 1
  else if integral < c then -1
  else suLoop β low k N c 50 low 1

/-- The bisect loop of `search_lower` (src/eff_ci.c, lines 128-134):
`test = 0.5*(too_high + too_low); integral = beta_ab(test, high, k, N);
if (integral > c) too_low = test; else too_high = test;` with the same break
and fuel conventions as `suLoop`. -/
def slLoop (β : ℚ → ℚ → ℤ → ℤ → ℚ) (high : ℚ) (k N : ℤ) (c : ℚ) :
    Nat → ℚ → ℚ → ℚ
  | 0, tooLow, tooHigh => (tooHigh + tooLow) / 2
  | n + 1, tooLow, tooHigh =>
    let test := (tooHigh + tooLow) / 2
    let integral := β test high k N
    if n = 0 ∨ |integral - c| ≤ 1 / 1000000000000000 then test
    else if c < integral then slLoop β high k N c n test tooHigh
    else slLoop β high k N c n tooLow test

/-- `search_lower` (src/eff_ci.c, lines 103-137): integral over the maximal
interval `[0, high]`; `== c` returns 0 (lucky), `< c` returns the sentinel -1,
otherwise 50 rounds of bisection between `too_low = 0` and `too_high = high`. -/
def search_lower (β : ℚ → ℚ → ℤ → ℤ → ℚ) (high : ℚ) (k N : ℤ) (c : ℚ) : ℚ :=
  let integral := β 0 high k N
  if integral = c then 0
  else if integral < c then -1
  else slLoop β high k N c 50 0 high

/-- `interval` (src/eff_ci.c, lines 140-153): the length of the interval
starting at `low` that contains `CONFLEVEL` of the posterior; the globals
`GLOBAL_k`, `GLOBAL_N`, `CONFLEVEL` are the explicit parameters `k N c`.
Returns 2.0 when `search_upper` returned the sentinel -1.0. -/
def interval (β : ℚ → ℚ → ℤ → ℤ → ℚ) (k N : ℤ) (c : ℚ) (low : ℚ) : ℚ :=
  let high := search_upper β low k N c
  if high = -1 then 2 else high - low

/-- The mutable locals of one `brent` iteration (src/eff_ci.c, line 160). -/
structure BrentState where
  a : ℚ
  b : ℚ
  v : ℚ
  w : ℚ
  x : ℚ
  fv : ℚ
  fw : ℚ
  fx : ℚ
  d : ℚ
  e : ℚ

/-- The observable outcome of `brent`: the out-parameter `*xmin`, the return
value `fret`, the list of arguments the objective was evaluated at, whether
the convergence test fired, and whether the non-convergence diagnostic was
printed. -/
structure BrentResult where
  xmin : ℚ
  fret : ℚ
  evals : List ℚ
  converged : Bool
  diag : Bool

/-- The local `r=(x-w)*(fx-fv)` of the parabolic attempt
(src/eff_ci.c, line 192). -/
def brentR (s : BrentState) : ℚ := (s.x - s.w) * (s.fx - s.fv)

/-- The local `q=(x-v)*(fx-fw)` of the parabolic attempt
(src/eff_ci.c, line 193). -/
def brentQ (s : BrentState) : ℚ := (s.x - s.v) * (s.fx - s.fw)

/-- The local `p=(x-v)*q-(x-w)*r` of the parabolic attempt
(src/eff_ci.c, line 194). -/
def brentP (s : BrentState) : ℚ := (s.x - s.v) * brentQ s - (s.x - s.w) * brentR s

/-- `q` after `q=2.0*(q-r)` (src/eff_ci.c, line 195). -/
def brentQ2 (s : BrentState) : ℚ := 2 * (brentQ s - brentR s)

/-- `p` after `if (q > 0.0) p = -p` (src/eff_ci.c, line 196). -/
def brentP2 (s : BrentState) : ℚ := if 0 < brentQ2 s then -brentP s else brentP s

/-- `q` after `q=fabs(q)` (src/eff_ci.c, line 197). -/
def brentQ3 (s : BrentState) : ℚ := |brentQ2 s|

/-- The step-choice block of one `brent` iteration (src/eff_ci.c,
lines 191-206): try a parabolic-interpolation step when `|e| > tol1`, fall
back to a golden-section step; returns the new `(d, e)` pair (`etemp` is the
incoming `s.e`; the accepted-parabolic branch executes the C `e=d`, i.e.
keeps `s.d` as the new `e`). -/
def brentDE (s : BrentState) (tol1 tol2 xm : ℚ) : ℚ × ℚ :=
  if tol1 < |s.e| then
    if |brentQ3 s * s.e| / 2 ≤ |brentP2 s| ∨ brentP2 s ≤ brentQ3 s * (s.a - s.x) ∨
        brentQ3 s * (s.b - s.x) ≤ brentP2 s then
      let e2 := if xm ≤ s.x then s.a - s.x else s.b - s.x
      (kCGOLD * e2, e2)
    else
      let d2 := brentP2 s / brentQ3 s
      let u := s.x + d2
      if u - s.a < tol2 ∨ s.b - u < tol2 then (mysign tol1 (xm - s.x), s.d)
      else (d2, s.d)
  else
    let e2 := if xm ≤ s.x then s.a - s.x else s.b - s.x
    (kCGOLD * e2, e2)

/-- The bookkeeping tail of one `brent` iteration (src/eff_ci.c,
lines 208-225): after evaluating `fu = f(u)`, shift the bracket onto the
side of `x` away from `u` (or onto `u`'s side of `x` when `u` is worse),
and update the ordered triple of best points `x`, `w`, `v`. -/
def brentUpdate (s : BrentState) (u fu d e2 : ℚ) : BrentState :=
  if fu ≤ s.fx then
    { a := if s.x ≤ u then s.x else s.a
      b := if s.x ≤ u then s.b else s.x
      v := s.w, w := s.x, x := u
      fv := s.fw, fw := s.fx, fx := fu
      d := d, e := e2 }
  else
    let a2 := if u < s.x then u else s.a
    let b2 := if u < s.x then s.b else u
    if fu ≤ s.fw ∨ s.w = s.x then
      { a := a2, b := b2, v := s.w, w := u, x := s.x
        fv := s.fw, fw := fu, fx := s.fx, d := d, e := e2 }
    else if fu ≤ s.fv ∨ s.v = s.x ∨ s.v = s.w then
      { a := a2, b := b2, v := u, w := s.w, x := s.x
        fv := fu, fw := s.fw, fx := s.fx, d := d, e := e2 }
    else
      { a := a2, b := b2, v := s.v, w := s.w, x := s.x
        fv := s.fv, fw := s.fw, fx := s.fx, d := d, e := e2 }

/-- The iteration loop of `brent` (src/eff_ci.c, lines 183-227), fuel = the
number of remaining iterations (`kITMAX = 100` at the initial call).  Fuel
exhaustion is the `printf("brent: Too many interations\n"); *xmin=x;
return fx;` exit, recorded as `converged = false, diag = true`. -/
def brentLoop (f : ℚ → ℚ) (tol : ℚ) : Nat → BrentState → BrentResult
  | 0, s => ⟨s.x, s.fx, [], false, true⟩
  | n + 1, s =>
    let xm := (s.a + s.b) / 2
    let tol1 := tol * |s.x| + kZEPS
    let tol2 := 2 * tol1
    if |s.x - xm| ≤ tol2 - (s.b - s.a) / 2 then ⟨s.x, s.fx, [], true, false⟩
    else
      let de := brentDE s tol1 tol2 xm
      let d := de.1
      let u := if tol1 ≤ |d| then s.x + d else s.x + mysign tol1 d
      let fu := f u
      let r := brentLoop f tol n (brentUpdate s u fu d de.2)
      ⟨r.xmin, r.fret, u :: r.evals, r.converged, r.diag⟩

/-- `brent` (src/eff_ci.c, lines 156-230): bracketed golden-section /
parabolic-interpolation minimization of `f` over `[min ax cx, max ax cx]`
starting from `bx`, 100 iterations maximum.  The objective `f` stands for
the hardcoded `interval` call of the C source. -/
def brent (f : ℚ → ℚ) (ax bx cx tol : ℚ) : BrentResult :=
  let a := if ax < cx then ax else cx
  let b := if cx < ax then ax else cx
  let fb := f bx
  let r := brentLoop f tol 100 ⟨a, b, bx, bx, bx, fb, fb, fb, 0, 0⟩
  ⟨r.xmin, r.fret, bx :: r.evals, r.converged, r.diag⟩

/-- `efficiency_ci` (src/eff_ci.c, lines 32-61), returning the triple
`(mode, low, high)`.  The assignment of the globals before the `brent` call
is the passing of `(k, N, conflevel)` to `interval`. -/
def efficiency_ci (β : ℚ → ℚ → ℤ → ℤ → ℚ) (k N : ℤ) (conflevel : ℚ) :
    ℚ × ℚ × ℚ :=
  if N = 0 then (1/2, 0, 1)
  else
    let mode : ℚ := (k : ℚ) / (N : ℚ)
    if k = 0 then (mode, 0, search_upper β 0 k N conflevel)
    else if k = N then (mode, search_lower β 1 k N conflevel, 1)
    else
      let low := (brent (interval β k N conflevel) 0 (1/2) 1
        (1/1000000000)).xmin
      (mode, low, low + interval β k N conflevel low)

/-! ### Concrete instances of the external primitive, used as test inputs -/

/-- A `beta_ab` instance that satisfies the interface assumptions
(`beta_ab 0 1 k N = 1`, all values in `[0,1]`) but concentrates all mass:
every proper sub-interval integral is 0. -/
def betaFlat (x y : ℚ) (k N : ℤ) : ℚ := if x = 0 ∧ y = 1 then 1 else 0

/-- A `beta_ab` instance whose maximal integral from the anchor `-1` is
exactly `1/2`, triggering the lucky exact-equality path of
`search_upper`. -/
def betaLucky (x y : ℚ) (k N : ℤ) : ℚ := if x = -1 then 1/2 else 1

/-! ### Bisection loop bounds -/

theorem suLoop_bounds (β : ℚ → ℚ → ℤ → ℤ → ℚ) (low : ℚ) (k N : ℤ) (c : ℚ) :
    ∀ (n : Nat) (tl th : ℚ), tl ≤ th →
      tl ≤ suLoop β low k N c n tl th ∧ suLoop β low k N c n tl th ≤ th := by
  intro n
  induction n with
  | zero =>
    intro tl th h
    dsimp only [suLoop]
    constructor <;> linarith
  | succ n ih =>
    intro tl th h
    dsimp only [suLoop]
    by_cases h1 : n = 0 ∨ |β low ((tl + th) / 2) k N - c| ≤ 1 / 1000000000000000
    · rw [if_pos h1]
      constructor <;> linarith
    · rw [if_neg h1]
      by_cases h2 : c < β low ((tl + th) / 2) k N
      · rw [if_pos h2]
        have h3 := ih tl ((tl + th) / 2) (by linarith)
        exact ⟨h3.1, by linarith [h3.2]⟩
      · rw [if_neg h2]
        have h3 := ih ((tl + th) / 2) th (by linarith)
        exact ⟨by linarith [h3.1], h3.2⟩

theorem slLoop_bounds (β : ℚ → ℚ → ℤ → ℤ → ℚ) (high : ℚ) (k N : ℤ) (c : ℚ) :
    ∀ (n : Nat) (tl th : ℚ), tl ≤ th →
      tl ≤ slLoop β high k N c n tl th ∧ slLoop β high k N c n tl th ≤ th := by
  intro n
  induction n with
  | zero =>
    intro tl th h
    dsimp only [slLoop]
    constructor <;> linarith
  | succ n ih =>
    intro tl th h
    dsimp only [slLoop]
    by_cases h1 : n = 0 ∨ |β ((th + tl) / 2) high k N - c| ≤ 1 / 1000000000000000
    · rw [if_pos h1]
      constructor <;> linarith
    · rw [if_neg h1]
      by_cases h2 : c < β ((th + tl) / 2) high k N
      · rw [if_pos h2]
        have h3 := ih ((th + tl) / 2) th (by linarith)
        exact ⟨by linarith [h3.1], h3.2⟩
      · rw [if_neg h2]
        have h3 := ih tl ((th + tl) / 2) (by linarith)
        exact ⟨h3.1, by linarith [h3.2]⟩

/-! ### Boundary search case analysis -/

theorem search_upper_lucky (β : ℚ → ℚ → ℤ → ℤ → ℚ) (low : ℚ) (k N : ℤ)
    (c : ℚ) (h : β low 1 k N = c) : search_upper β low k N c = 1 := by
  simp [search_upper, h]

theorem search_upper_sentinel (β : ℚ → ℚ → ℤ → ℤ → ℚ) (low : ℚ) (k N : ℤ)
    (c : ℚ) (h : β low 1 k N < c) : search_upper β low k N c = -1 := by
  simp [search_upper, h, h.ne]

theorem search_upper_bisect (β : ℚ → ℚ → ℤ → ℤ → ℚ) (low : ℚ) (k N : ℤ)
    (c : ℚ) (h : c < β low 1 k N) (hlow : low ≤ 1) :
    low ≤ search_upper β low k N c ∧ search_upper β low k N c ≤ 1 := by
  have h1 : search_upper β low k N c = suLoop β low k N c 50 low 1 := by
    simp [search_upper, h.ne', not_lt.2 h.le]
  rw [h1]
  exact suLoop_bounds β low k N c 50 low 1 hlow

theorem search_upper_ne_bounds (β : ℚ → ℚ → ℤ → ℤ → ℚ) (low : ℚ) (k N : ℤ)
    (c : ℚ) (hlow : low ≤ 1) (hne : search_upper β low k N c ≠ -1) :
    low ≤ search_upper β low k N c ∧ search_upper β low k N c ≤ 1 := by
  rcases lt_trichotomy (β low 1 k N) c with h | h | h
  · exact absurd (search_upper_sentinel β low k N c h) hne
  · rw [search_upper_lucky β low k N c h]
    exact ⟨hlow, le_refl 1⟩
  · exact search_upper_bisect β low k N c h hlow

theorem search_lower_lucky (β : ℚ → ℚ → ℤ → ℤ → ℚ) (high : ℚ) (k N : ℤ)
    (c : ℚ) (h : β 0 high k N = c) : search_lower β high k N c = 0 := by
  simp [search_lower, h]

theorem search_lower_sentinel (β : ℚ → ℚ → ℤ → ℤ → ℚ) (high : ℚ) (k N : ℤ)
    (c : ℚ) (h : β 0 high k N < c) : search_lower β high k N c = -1 := by
  simp [search_lower, h, h.ne]

theorem search_lower_bisect (β : ℚ → ℚ → ℤ → ℤ → ℚ) (high : ℚ) (k N : ℤ)
    (c : ℚ) (h : c < β 0 high k N) (hhigh : 0 ≤ high) :
    0 ≤ search_lower β high k N c ∧ search_lower β high k N c ≤ high := by
  have h1 : search_lower β high k N c = slLoop β high k N c 50 0 high := by
    simp [search_lower, h.ne', not_lt.2 h.le]
  rw [h1]
  exact slLoop_bounds β high k N c 50 0 high hhigh

/-! ### Interval objective case analysis -/

theorem interval_eq_or (β : ℚ → ℚ → ℤ → ℤ → ℚ) (k N : ℤ) (c : ℚ) (low : ℚ)
    (h0 : 0 ≤ low) (h1 : low ≤ 1) :
    (search_upper β low k N c = -1 ∧ interval β k N c low = 2) ∨
    (search_upper β low k N c ≠ -1 ∧
     interval β k N c low = search_upper β low k N c - low ∧
     0 ≤ interval β k N c low ∧ low + interval β k N c low ≤ 1) := by
  by_cases hs : search_upper β low k N c = -1
  · left
    exact ⟨hs, by simp [interval, hs]⟩
  · right
    have hb := search_upper_ne_bounds β low k N c h1 hs
    have h2 : interval β k N c low = search_upper β low k N c - low := by
      simp [interval, hs]
    exact ⟨hs, h2, by rw [h2]; linarith [hb.1], by rw [h2]; linarith [hb.2]⟩

/-! ### Brent step analysis -/

theorem brentDE_cases (s : BrentState) (tol1 tol2 xm : ℚ) :
    (brentDE s tol1 tol2 xm).1 =
      kCGOLD * (if xm ≤ s.x then s.a - s.x else s.b - s.x) ∨
    (s.a - s.x < (brentDE s tol1 tol2 xm).1 ∧
     (brentDE s tol1 tol2 xm).1 < s.b - s.x ∧
     tol2 ≤ s.x + (brentDE s tol1 tol2 xm).1 - s.a ∧
     tol2 ≤ s.b - (s.x + (brentDE s tol1 tol2 xm).1)) ∨
    ((brentDE s tol1 tol2 xm).1 = mysign tol1 (xm - s.x) ∧ 0 < tol2) := by
  have hq0 : 0 ≤ brentQ3 s := abs_nonneg (brentQ2 s)
  unfold brentDE
  by_cases h1 : tol1 < |s.e|
  · rw [if_pos h1]
    by_cases h2 : |brentQ3 s * s.e| / 2 ≤ |brentP2 s| ∨
        brentP2 s ≤ brentQ3 s * (s.a - s.x) ∨ brentQ3 s * (s.b - s.x) ≤ brentP2 s
    · rw [if_pos h2]
      exact Or.inl rfl
    · rw [if_neg h2]
      push_neg at h2
      obtain ⟨h2a, h2b, h2c⟩ := h2
      have hq : 0 < brentQ3 s := by
        rcases eq_or_lt_of_le hq0 with h | h
        · rw [← h] at h2b h2c
          simp only [zero_mul] at h2b h2c
          linarith
        · exact h
      have hd1 : s.a - s.x < brentP2 s / brentQ3 s := by
        rw [lt_div_iff hq]
        nlinarith [h2b]
      have hd2 : brentP2 s / brentQ3 s < s.b - s.x := by
        rw [div_lt_iff hq]
        nlinarith [h2c]
      dsimp only
      by_cases h3 : s.x + brentP2 s / brentQ3 s - s.a < tol2 ∨
          s.b - (s.x + brentP2 s / brentQ3 s) < tol2
      · rw [if_pos h3]
        refine Or.inr (Or.inr ⟨rfl, ?_⟩)
        rcases h3 with h3 | h3 <;> linarith
      · rw [if_neg h3]
        push_neg at h3
        exact Or.inr (Or.inl ⟨hd1, hd2, by linarith [h3.1], by linarith [h3.2]⟩)
  · rw [if_neg h1]
    exact Or.inl rfl

theorem kCGOLD_nonneg : (0:ℚ) ≤ kCGOLD := by norm_num [kCGOLD]

theorem kCGOLD_le_one : kCGOLD ≤ 1 := by norm_num [kCGOLD]

theorem kCGOLD_pos : (0:ℚ) < kCGOLD := by norm_num [kCGOLD]

/-- In a non-converged iteration the new trial point `u` stays inside the
current bracket `[a, b]`. -/
theorem brent_u_mem (s : BrentState) (tol1 : ℚ)
    (hax : s.a ≤ s.x) (hxb : s.x ≤ s.b)
    (hnc : ¬|s.x - (s.a + s.b) / 2| ≤ 2 * tol1 - (s.b - s.a) / 2) :
    ∀ u, u = (if tol1 ≤ |(brentDE s tol1 (2 * tol1) ((s.a + s.b) / 2)).1|
        then s.x + (brentDE s tol1 (2 * tol1) ((s.a + s.b) / 2)).1
        else s.x + mysign tol1 (brentDE s tol1 (2 * tol1) ((s.a + s.b) / 2)).1) →
      s.a ≤ u ∧ u ≤ s.b := by
  have hxm : |s.x - (s.a + s.b) / 2| ≤ (s.b - s.a) / 2 :=
    abs_le.mpr ⟨by linarith, by linarith⟩
  have hba : 2 * tol1 < s.b - s.a := by
    by_contra hcon
    push_neg at hcon
    exact hnc (by linarith)
  intro u hu
  rcases brentDE_cases s tol1 (2 * tol1) ((s.a + s.b) / 2) with hd | hd | hd
  · -- golden-section step
    by_cases hxm2 : (s.a + s.b) / 2 ≤ s.x
    · rw [if_pos hxm2] at hd
      by_cases hdt : tol1 ≤ |(brentDE s tol1 (2 * tol1) ((s.a + s.b) / 2)).1|
      · rw [if_pos hdt, hd] at hu
        subst hu
        constructor
        · nlinarith [mul_nonneg (sub_nonneg.2 hax) (sub_nonneg.2 kCGOLD_le_one)]
        · nlinarith [mul_nonneg kCGOLD_nonneg (sub_nonneg.2 hax)]
      · rw [if_neg hdt, hd] at hu
        push_neg at hdt
        have htp : 0 < tol1 := lt_of_le_of_lt (abs_nonneg _) hdt
        by_cases h0 : 0 ≤ kCGOLD * (s.a - s.x)
        · -- forces a = x hence a = b, contradicting b - a > 2*tol1 > 0
          have hax2 : s.x ≤ s.a := by
            by_contra hcon2
            push_neg at hcon2
            have : kCGOLD * (s.a - s.x) < 0 :=
              mul_neg_of_pos_of_neg kCGOLD_pos (by linarith)
            linarith
          exact absurd hba (by linarith)
        · rw [mysign, if_neg h0, abs_of_pos htp] at hu
          subst hu
          constructor <;> linarith
    · rw [if_neg hxm2] at hd
      push_neg at hxm2
      by_cases hdt : tol1 ≤ |(brentDE s tol1 (2 * tol1) ((s.a + s.b) / 2)).1|
      · rw [if_pos hdt, hd] at hu
        subst hu
        constructor
        · nlinarith [mul_nonneg kCGOLD_nonneg (sub_nonneg.2 hxb)]
        · nlinarith [mul_nonneg (sub_nonneg.2 hxb) (sub_nonneg.2 kCGOLD_le_one)]
      · rw [if_neg hdt, hd] at hu
        push_neg at hdt
        have htp : 0 < tol1 := lt_of_le_of_lt (abs_nonneg _) hdt
        have h0 : 0 ≤ kCGOLD * (s.b - s.x) :=
          mul_nonneg kCGOLD_nonneg (sub_nonneg.2 hxb)
        rw [mysign, if_pos h0, abs_of_pos htp] at hu
        subst hu
        constructor <;> linarith
  · -- accepted parabolic step, no guard
    obtain ⟨hd1, hd2, hd3, hd4⟩ := hd
    by_cases hdt : tol1 ≤ |(brentDE s tol1 (2 * tol1) ((s.a + s.b) / 2)).1|
    · rw [if_pos hdt] at hu
      subst hu
      constructor <;> linarith
    · rw [if_neg hdt] at hu
      push_neg at hdt
      have htp : 0 < tol1 := lt_of_le_of_lt (abs_nonneg _) hdt
      have habs := abs_lt.mp hdt
      by_cases h0 : 0 ≤ (brentDE s tol1 (2 * tol1) ((s.a + s.b) / 2)).1
      · rw [mysign, if_pos h0, abs_of_pos htp] at hu
        subst hu
        constructor <;> linarith
      · rw [mysign, if_neg h0, abs_of_pos htp] at hu
        push_neg at h0
        subst hu
        constructor <;> linarith
  · -- guard-overridden parabolic step
    obtain ⟨hd1, hd2⟩ := hd
    have htp : 0 < tol1 := by linarith
    have habs : |(brentDE s tol1 (2 * tol1) ((s.a + s.b) / 2)).1| = tol1 := by
      rw [hd1, mysign]
      split_ifs <;> simp [abs_abs, abs_neg, abs_of_pos htp]
    have hdt : tol1 ≤ |(brentDE s tol1 (2 * tol1) ((s.a + s.b) / 2)).1| := by
      rw [habs]
    rw [if_pos hdt, hd1, mysign] at hu
    by_cases hxm2 : 0 ≤ (s.a + s.b) / 2 - s.x
    · rw [if_pos hxm2, abs_of_pos htp] at hu
      subst hu
      constructor <;> linarith
    · rw [if_neg hxm2, abs_of_pos htp] at hu
      push_neg at hxm2
      subst hu
      constructor <;> linarith

/-! ### Brent bookkeeping invariants -/

theorem brentUpdate_bracket (s : BrentState) (u fu d e2 : ℚ)
    (hax : s.a ≤ s.x) (hxb : s.x ≤ s.b) (hua : s.a ≤ u) (hub : u ≤ s.b) :
    s.a ≤ (brentUpdate s u fu d e2).a ∧
    (brentUpdate s u fu d e2).a ≤ (brentUpdate s u fu d e2).x ∧
    (brentUpdate s u fu d e2).x ≤ (brentUpdate s u fu d e2).b ∧
    (brentUpdate s u fu d e2).b ≤ s.b := by
  unfold brentUpdate
  split_ifs with h1 h2 h3 h4 <;>
    refine ⟨?_, ?_, ?_, ?_⟩ <;>
    dsimp only <;>
    first
      | linarith
      | (split_ifs with h5 <;> push_neg at * <;> linarith)

theorem brentUpdate_fx_x (s : BrentState) (u fu d e2 : ℚ) :
    ((brentUpdate s u fu d e2).fx = fu ∧ (brentUpdate s u fu d e2).x = u) ∨
    ((brentUpdate s u fu d e2).fx = s.fx ∧ (brentUpdate s u fu d e2).x = s.x) := by
  unfold brentUpdate
  split_ifs <;> simp

theorem brentUpdate_fx_le (s : BrentState) (u fu d e2 : ℚ) :
    (brentUpdate s u fu d e2).fx ≤ s.fx ∧ (brentUpdate s u fu d e2).fx ≤ fu := by
  unfold brentUpdate
  split_ifs with h1 h2 h3 <;> dsimp only <;> constructor <;>
    (try push_neg at h1) <;> linarith

/-- Bracket confinement for the iteration loop: starting from a state with
`a ≤ x ≤ b`, the returned minimizer and every objective-evaluation argument
lie in `[a, b]`. -/
theorem brentLoop_bounds (f : ℚ → ℚ) (tol : ℚ) :
    ∀ (n : Nat) (s : BrentState), s.a ≤ s.x → s.x ≤ s.b →
      (s.a ≤ (brentLoop f tol n s).xmin ∧ (brentLoop f tol n s).xmin ≤ s.b) ∧
      ∀ p ∈ (brentLoop f tol n s).evals, s.a ≤ p ∧ p ≤ s.b := by
  intro n
  induction n with
  | zero =>
    intro s hax hxb
    dsimp only [brentLoop]
    exact ⟨⟨hax, hxb⟩, by simp⟩
  | succ n ih =>
    intro s hax hxb
    dsimp only [brentLoop]
    by_cases hc : |s.x - (s.a + s.b) / 2| ≤
        2 * (tol * |s.x| + kZEPS) - (s.b - s.a) / 2
    · rw [if_pos hc]
      exact ⟨⟨hax, hxb⟩, by simp⟩
    · rw [if_neg hc]
      obtain ⟨hua, hub⟩ :=
        brent_u_mem s (tol * |s.x| + kZEPS) hax hxb hc _ rfl
      have hup := brentUpdate_bracket s _
        (f (if tol * |s.x| + kZEPS ≤
              |(brentDE s (tol * |s.x| + kZEPS) (2 * (tol * |s.x| + kZEPS))
                  ((s.a + s.b) / 2)).1|
            then s.x + (brentDE s (tol * |s.x| + kZEPS)
                (2 * (tol * |s.x| + kZEPS)) ((s.a + s.b) / 2)).1
            else s.x + mysign (tol * |s.x| + kZEPS)
                (brentDE s (tol * |s.x| + kZEPS) (2 * (tol * |s.x| + kZEPS))
                  ((s.a + s.b) / 2)).1))
        (brentDE s (tol * |s.x| + kZEPS) (2 * (tol * |s.x| + kZEPS))
          ((s.a + s.b) / 2)).1
        (brentDE s (tol * |s.x| + kZEPS) (2 * (tol * |s.x| + kZEPS))
          ((s.a + s.b) / 2)).2
        hax hxb hua hub
      obtain ⟨hxm, hev⟩ := ih _ hup.2.1 hup.2.2.1
      refine ⟨⟨by linarith [hxm.1, hup.1], by linarith [hxm.2, hup.2.2.2]⟩, ?_⟩
      intro p hp
      rcases List.mem_cons.mp hp with rfl | hp
      · exact ⟨hua, hub⟩
      · obtain ⟨h5, h6⟩ := hev p hp
        exact ⟨by linarith [hup.1], by linarith [hup.2.2.2]⟩

/-- The running best value is the value of the running best point, and the
returned value is a lower bound for the objective at every evaluated
argument. -/
theorem brentLoop_min (f : ℚ → ℚ) (tol : ℚ) :
    ∀ (n : Nat) (s : BrentState), s.fx = f s.x →
      (brentLoop f tol n s).fret = f (brentLoop f tol n s).xmin ∧
      (brentLoop f tol n s).fret ≤ s.fx ∧
      ∀ p ∈ (brentLoop f tol n s).evals, (brentLoop f tol n s).fret ≤ f p := by
  intro n
  induction n with
  | zero =>
    intro s hfx
    dsimp only [brentLoop]
    exact ⟨hfx, le_refl _, by simp⟩
  | succ n ih =>
    intro s hfx
    dsimp only [brentLoop]
    by_cases hc : |s.x - (s.a + s.b) / 2| ≤
        2 * (tol * |s.x| + kZEPS) - (s.b - s.a) / 2
    · rw [if_pos hc]
      exact ⟨hfx, le_refl _, by simp⟩
    · rw [if_neg hc]
      set u := (if tol * |s.x| + kZEPS ≤
          |(brentDE s (tol * |s.x| + kZEPS) (2 * (tol * |s.x| + kZEPS))
              ((s.a + s.b) / 2)).1|
        then s.x + (brentDE s (tol * |s.x| + kZEPS)
            (2 * (tol * |s.x| + kZEPS)) ((s.a + s.b) / 2)).1
        else s.x + mysign (tol * |s.x| + kZEPS)
            (brentDE s (tol * |s.x| + kZEPS) (2 * (tol * |s.x| + kZEPS))
              ((s.a + s.b) / 2)).1) with hu
      set s2 := brentUpdate s u (f u)
        (brentDE s (tol * |s.x| + kZEPS) (2 * (tol * |s.x| + kZEPS))
          ((s.a + s.b) / 2)).1
        (brentDE s (tol * |s.x| + kZEPS) (2 * (tol * |s.x| + kZEPS))
          ((s.a + s.b) / 2)).2 with hs2
    -- the recursive state keeps the invariant fx = f x
      have hfx2 : s2.fx = f s2.x := by
        rcases brentUpdate_fx_x s u (f u)
            (brentDE s (tol * |s.x| + kZEPS) (2 * (tol * |s.x| + kZEPS))
              ((s.a + s.b) / 2)).1
            (brentDE s (tol * |s.x| + kZEPS) (2 * (tol * |s.x| + kZEPS))
              ((s.a + s.b) / 2)).2 with h | h
        · rw [← hs2] at h
          rw [h.1, h.2]
        · rw [← hs2] at h
          rw [h.1, h.2, hfx]
      have hle := brentUpdate_fx_le s u (f u)
        (brentDE s (tol * |s.x| + kZEPS) (2 * (tol * |s.x| + kZEPS))
          ((s.a + s.b) / 2)).1
        (brentDE s (tol * |s.x| + kZEPS) (2 * (tol * |s.x| + kZEPS))
          ((s.a + s.b) / 2)).2
      rw [← hs2] at hle
      obtain ⟨ih1, ih2, ih3⟩ := ih s2 hfx2
      refine ⟨ih1, by linarith [hle.1], ?_⟩
      intro p hp
      rcases List.mem_cons.mp hp with rfl | hp
      · linarith [hle.2]
      · exact ih3 p hp

/-- The diagnostic flag is exactly the negation of the convergence flag. -/
theorem brentLoop_diag (f : ℚ → ℚ) (tol : ℚ) :
    ∀ (n : Nat) (s : BrentState),
      (brentLoop f tol n s).diag = !(brentLoop f tol n s).converged := by
  intro n
  induction n with
  | zero =>
    intro s
    dsimp only [brentLoop]
    rfl
  | succ n ih =>
    intro s
    dsimp only [brentLoop]
    by_cases hc : |s.x - (s.a + s.b) / 2| ≤
        2 * (tol * |s.x| + kZEPS) - (s.b - s.a) / 2
    · rw [if_pos hc]
      rfl
    · rw [if_neg hc]
      exact ih _

/-! ### Top-level brent lemmas -/

theorem brent_init_lo (ax cx : ℚ) : (if ax < cx then ax else cx) = min ax cx := by
  rcases lt_trichotomy ax cx with h | h | h
  · rw [if_pos h, min_eq_left h.le]
  · rw [h, if_neg (lt_irrefl cx), min_self]
  · rw [if_neg (not_lt.2 h.le), min_eq_right h.le]

theorem brent_init_hi (ax cx : ℚ) : (if cx < ax then ax else cx) = max ax cx := by
  rcases lt_trichotomy ax cx with h | h | h
  · rw [if_neg (not_lt.2 h.le), max_eq_right h.le]
  · rw [h, if_neg (lt_irrefl cx), max_self]
  · rw [if_pos h, max_eq_left h.le]

theorem brent_mem (f : ℚ → ℚ) (ax bx cx tol : ℚ)
    (h1 : min ax cx ≤ bx) (h2 : bx ≤ max ax cx) :
    (min ax cx ≤ (brent f ax bx cx tol).xmin ∧
     (brent f ax bx cx tol).xmin ≤ max ax cx) ∧
    ∀ p ∈ (brent f ax bx cx tol).evals, min ax cx ≤ p ∧ p ≤ max ax cx := by
  unfold brent
  dsimp only
  rw [brent_init_lo, brent_init_hi]
  obtain ⟨hxm, hev⟩ := brentLoop_bounds f tol 100
    ⟨min ax cx, max ax cx, bx, bx, bx, f bx, f bx, f bx, 0, 0⟩ h1 h2
  refine ⟨hxm, ?_⟩
  intro p hp
  rcases List.mem_cons.mp hp with rfl | hp
  · exact ⟨h1, h2⟩
  · exact hev p hp

theorem brent_min (f : ℚ → ℚ) (ax bx cx tol : ℚ) :
    (brent f ax bx cx tol).fret = f (brent f ax bx cx tol).xmin ∧
    ∀ p ∈ (brent f ax bx cx tol).evals, (brent f ax bx cx tol).fret ≤ f p := by
  unfold brent
  dsimp only
  obtain ⟨h1, h2, h3⟩ := brentLoop_min f tol 100
    ⟨if ax < cx then ax else cx, if cx < ax then ax else cx,
      bx, bx, bx, f bx, f bx, f bx, 0, 0⟩ rfl
  refine ⟨h1, ?_⟩
  intro p hp
  rcases List.mem_cons.mp hp with rfl | hp
  · exact h2
  · exact h3 p hp

theorem brent_diag (f : ℚ → ℚ) (ax bx cx tol : ℚ) :
    (brent f ax bx cx tol).diag = !(brent f ax bx cx tol).converged := by
  unfold brent
  dsimp only
  exact brentLoop_diag f tol 100 _

/-! ### Entry point branch lemmas -/

theorem eff_N0 (β : ℚ → ℚ → ℤ → ℤ → ℚ) (k : ℤ) (c : ℚ) :
    efficiency_ci β k 0 c = (1/2, 0, 1) := by
  simp [efficiency_ci]

theorem eff_k0 (β : ℚ → ℚ → ℤ → ℤ → ℚ) (N : ℤ) (c : ℚ) (hN : N ≠ 0) :
    efficiency_ci β 0 N c = (0, 0, search_upper β 0 0 N c) := by
  simp [efficiency_ci, hN]

theorem eff_kN (β : ℚ → ℚ → ℤ → ℤ → ℚ) (N : ℤ) (c : ℚ) (hN : N ≠ 0) :
    efficiency_ci β N N c = (1, search_lower β 1 N N c, 1) := by
  have hc : ((N : ℚ)) ≠ 0 := Int.cast_ne_zero.mpr hN
  simp [efficiency_ci, hN, div_self hc]

theorem eff_general (β : ℚ → ℚ → ℤ → ℤ → ℚ) (k N : ℤ) (c : ℚ)
    (hk : k ≠ 0) (hkN : k ≠ N) (hN : N ≠ 0) :
    efficiency_ci β k N c =
      ((k : ℚ) / (N : ℚ),
       (brent (interval β k N c) 0 (1/2) 1 (1/1000000000)).xmin,
       (brent (interval β k N c) 0 (1/2) 1 (1/1000000000)).xmin +
         interval β k N c
           ((brent (interval β k N c) 0 (1/2) 1 (1/1000000000)).xmin)) := by
  simp [efficiency_ci, hk, hkN, hN]

/-- The brent-produced lower edge of the general branch lies in `[0, 1]`. -/
theorem brent_low_mem (f : ℚ → ℚ) :
    0 ≤ (brent f 0 (1/2) 1 (1/1000000000)).xmin ∧
    (brent f 0 (1/2) 1 (1/1000000000)).xmin ≤ 1 := by
  have h := (brent_mem f 0 (1/2) 1 (1/1000000000)
    (by norm_num) (by norm_num)).1
  rw [min_def, max_def] at h
  norm_num at h
  exact h

theorem mode_bounds (k N : ℤ) (hk0 : 0 ≤ k) (hkN : k ≤ N) (hN : 0 < N) :
    0 ≤ (k : ℚ) / (N : ℚ) ∧ (k : ℚ) / (N : ℚ) ≤ 1 := by
  have hNq : (0:ℚ) < (N : ℚ) := by exact_mod_cast hN
  constructor
  · exact div_nonneg (by exact_mod_cast hk0) hNq.le
  · rw [div_le_one hNq]
    exact_mod_cast hkN

/-- Projection helpers, proved on variables so that rewriting with them never
asks the kernel to reduce an instantiated `brent` application. -/
theorem triple_mode (x y z : ℚ) : ((x, y, z) : ℚ × ℚ × ℚ).1 = x := rfl

theorem triple_low (x y z : ℚ) : ((x, y, z) : ℚ × ℚ × ℚ).2.1 = y := rfl

theorem triple_high (x y z : ℚ) : ((x, y, z) : ℚ × ℚ × ℚ).2.2 = z := rfl

/-! ### Claim theorems -/

/-- Claim C7: a call `efficiency_ci(k, 0, c)` with `N = 0` returns exactly
`mode = 0.5, low = 0.0, high = 1.0` for every `k` and every conflevel `c`.
The statement is universally quantified over the external primitive `β`, so
the result does not depend on any `beta_ab` evaluation: the boundary search,
the interval objective and the minimizer (which all observe `β`) are never
consulted. -/
theorem efficiency_ci_no_data (β : ℚ → ℚ → ℤ → ℤ → ℚ) (k : ℤ) (c : ℚ) :
    efficiency_ci β k 0 c = (1/2, 0, 1) :=
  eff_N0 β k c

/-- Claim C2: for `0 < k < N`, `efficiency_ci` sets `mode = k/N`, passes the
active minimization context `(k, N, conflevel)` to the interval objective,
obtains `low` from `brent` on that objective over the bracket
`(0.0, 0.5, 1.0)` with tolerance `1e-9`, and sets
`high = low + interval(low)`. -/
theorem efficiency_ci_general_case (β : ℚ → ℚ → ℤ → ℤ → ℚ) (k N : ℤ)
    (c : ℚ) (hk : 0 < k) (hkN : k < N) :
    efficiency_ci β k N c =
      ((k : ℚ) / (N : ℚ),
       (brent (interval β k N c) 0 (1/2) 1 (1/1000000000)).xmin,
       (brent (interval β k N c) 0 (1/2) 1 (1/1000000000)).xmin +
         interval β k N c
           ((brent (interval β k N c) 0 (1/2) 1 (1/1000000000)).xmin)) :=
  eff_general β k N c (by omega) (by omega) (by omega)

/-- Claim C2 witness: instantiation at `β = betaFlat`, `k = 1`, `N = 2`,
`c = 1/2`. -/
theorem efficiency_ci_general_case_witness :
    (0:ℤ) < 1 ∧ (1:ℤ) < 2 ∧
    efficiency_ci betaFlat 1 2 (1/2) =
      (((1:ℤ) : ℚ) / ((2:ℤ) : ℚ),
       (brent (interval betaFlat 1 2 (1/2)) 0 (1/2) 1 (1/1000000000)).xmin,
       (brent (interval betaFlat 1 2 (1/2)) 0 (1/2) 1 (1/1000000000)).xmin +
         interval betaFlat 1 2 (1/2)
           ((brent (interval betaFlat 1 2 (1/2)) 0 (1/2) 1
             (1/1000000000)).xmin)) :=
  ⟨by norm_num, by norm_num,
    efficiency_ci_general_case betaFlat 1 2 (1/2) (by norm_num) (by norm_num)⟩

/-- Claim C6: for `N > 0` and `c` in `(0,1)`, the `k = 0` branch returns
`mode = 0, low = 0, high = search_upper(0, 0, N, c)` and the `k = N` branch
returns `mode = 1, high = 1, low = search_lower(1, N, N, c)`; both
right-hand sides are built from the boundary searches only — the minimizer
`brent` does not occur in them. -/
theorem efficiency_ci_boundary_cases (β : ℚ → ℚ → ℤ → ℤ → ℚ) (N : ℤ)
    (c : ℚ) (hN : 0 < N) (hc0 : 0 < c) (hc1 : c < 1) :
    efficiency_ci β 0 N c = (0, 0, search_upper β 0 0 N c) ∧
    efficiency_ci β N N c = (1, search_lower β 1 N N c, 1) :=
  ⟨eff_k0 β N c (by omega), eff_kN β N c (by omega)⟩

/-- Claim C6 witness: instantiation at `β = betaFlat`, `N = 1`, `c = 1/2`. -/
theorem efficiency_ci_boundary_cases_witness :
    (0:ℤ) < 1 ∧ (0:ℚ) < 1/2 ∧ (1:ℚ)/2 < 1 ∧
    (efficiency_ci betaFlat 0 1 (1/2) = (0, 0, search_upper betaFlat 0 0 1 (1/2)) ∧
     efficiency_ci betaFlat 1 1 (1/2) = (1, search_lower betaFlat 1 1 1 (1/2), 1)) :=
  ⟨by norm_num, by norm_num, by norm_num,
    efficiency_ci_boundary_cases betaFlat 1 (1/2) (by norm_num) (by norm_num)
      (by norm_num)⟩

/-- Claim C3: for anchors in `[0,1]`, `0 ≤ k ≤ N` and `c ∈ (0,1)`:
`search_upper` returns 1.0 when `beta_ab(low,1,k,N)` is exactly equal to
`c`, `search_lower` returns 0.0 when `beta_ab(0,high,k,N)` is exactly equal
to `c`, and each returns the sentinel -1.0 exactly when its
maximal-interval integral is strictly below `c`. -/
theorem search_sentinel_spec (β : ℚ → ℚ → ℤ → ℤ → ℚ) (la ha : ℚ)
    (k N : ℤ) (c : ℚ)
    (hla0 : 0 ≤ la) (hla1 : la ≤ 1) (hha0 : 0 ≤ ha) (hha1 : ha ≤ 1)
    (hk0 : 0 ≤ k) (hkN : k ≤ N) (hc0 : 0 < c) (hc1 : c < 1) :
    (β la 1 k N = c → search_upper β la k N c = 1) ∧
    (β 0 ha k N = c → search_lower β ha k N c = 0) ∧
    (search_upper β la k N c = -1 ↔ β la 1 k N < c) ∧
    (search_lower β ha k N c = -1 ↔ β 0 ha k N < c) := by
  refine ⟨search_upper_lucky β la k N c, search_lower_lucky β ha k N c, ?_, ?_⟩
  · constructor
    · intro hsu
      rcases lt_trichotomy (β la 1 k N) c with h | h | h
      · exact h
      · rw [search_upper_lucky β la k N c h] at hsu
        norm_num at hsu
      · have hb := search_upper_bisect β la k N c h hla1
        rw [hsu] at hb
        linarith [hb.1]
    · exact search_upper_sentinel β la k N c
  · constructor
    · intro hsl
      rcases lt_trichotomy (β 0 ha k N) c with h | h | h
      · exact h
      · rw [search_lower_lucky β ha k N c h] at hsl
        norm_num at hsl
      · have hb := search_lower_bisect β ha k N c h hha0
        rw [hsl] at hb
        linarith [hb.1]
    · exact search_lower_sentinel β ha k N c


/-- Claim C3 witness: instantiation at `β = betaFlat`, anchors 0 and 1,
`k = 0`, `N = 1`, `c = 1/2`. -/
theorem search_sentinel_spec_witness :
    ((0:ℚ) ≤ 0 ∧ (0:ℚ) ≤ 1 ∧ (0:ℚ) ≤ 1 ∧ (1:ℚ) ≤ 1 ∧
     (0:ℤ) ≤ 0 ∧ (0:ℤ) ≤ 1 ∧ (0:ℚ) < 1/2 ∧ (1:ℚ)/2 < 1) ∧
    ((betaFlat 0 1 0 1 = 1/2 → search_upper betaFlat 0 0 1 (1/2) = 1) ∧
     (betaFlat 0 1 0 1 = 1/2 → search_lower betaFlat 1 0 1 (1/2) = 0) ∧
     (search_upper betaFlat 0 0 1 (1/2) = -1 ↔ betaFlat 0 1 0 1 < 1/2) ∧
     (search_lower betaFlat 1 0 1 (1/2) = -1 ↔ betaFlat 0 1 0 1 < 1/2)) :=
  ⟨⟨by norm_num, by norm_num, by norm_num, by norm_num, by norm_num,
    by norm_num, by norm_num, by norm_num⟩,
   search_sentinel_spec betaFlat 0 1 0 1 (1/2) (by norm_num) (by norm_num)
     (by norm_num) (by norm_num) (by norm_num) (by norm_num) (by norm_num)
     (by norm_num)⟩

/-- Claim C4 counterexample: at the candidate lower edge `low = -1`
(outside `[0,1]`) with the context `(k, N, c) = (1, 2, 1/2)` and the
admissible primitive `betaLucky`, `interval` returns 2.0 through its
`high - low` branch while `search_upper` returned 1.0, not the sentinel, so
the claimed equivalence "returns 2.0 iff search_upper returned -1.0" fails
as stated for arbitrary real candidate edges. -/
theorem interval_sentinel_cex :
    interval betaLucky 1 2 (1/2) (-1) = 2 ∧
    search_upper betaLucky (-1) 1 2 (1/2) ≠ -1 := by
  constructor
  · decide!
  · decide!

/-- Claim C4 (amended): for every candidate lower edge `low` in `[0,1]`
(the probability coordinates the minimization context ever produces), with
the active context `(GLOBAL_k, GLOBAL_N, CONFLEVEL)` passed as parameters,
`interval` returns 2.0 if and only if `search_upper` returns the sentinel
-1.0, and otherwise returns exactly `search_upper`'s result minus `low`. -/
theorem interval_sentinel_iff_amended (β : ℚ → ℚ → ℤ → ℤ → ℚ) (k N : ℤ)
    (c : ℚ) (low : ℚ) (h0 : 0 ≤ low) (h1 : low ≤ 1) :
    (interval β k N c low = 2 ↔ search_upper β low k N c = -1) ∧
    (search_upper β low k N c ≠ -1 →
      interval β k N c low = search_upper β low k N c - low) := by
  constructor
  · constructor
    · intro hi
      by_contra hs
      have hb := search_upper_ne_bounds β low k N c h1 hs
      rw [interval, if_neg hs] at hi
      linarith [hb.2]
    · intro hs
      simp [interval, hs]
  · intro hs
    simp [interval, hs]

/-- Claim C4 witness: instantiation at `β = betaFlat`, context `(0, 1, 1/2)`,
`low = 1/2`. -/
theorem interval_sentinel_iff_amended_witness :
    ((0:ℚ) ≤ 1/2 ∧ (1:ℚ)/2 ≤ 1) ∧
    ((interval betaFlat 0 1 (1/2) (1/2) = 2 ↔
        search_upper betaFlat (1/2) 0 1 (1/2) = -1) ∧
     (search_upper betaFlat (1/2) 0 1 (1/2) ≠ -1 →
        interval betaFlat 0 1 (1/2) (1/2) =
          search_upper betaFlat (1/2) 0 1 (1/2) - 1/2)) :=
  ⟨⟨by norm_num, by norm_num⟩,
   interval_sentinel_iff_amended betaFlat 0 1 (1/2) (1/2) (by norm_num)
     (by norm_num)⟩

/-- Claim C5: for valid inputs (`0 ≤ k ≤ N`, `0 < conflevel < 1`) and a
normalized primitive (`beta_ab(0,1,k,N) = 1`), neither the returned `low`
nor the returned `high` is the infeasibility sentinel -1.0: the sentinel is
consumed internally and never leaks to the caller. -/
theorem sentinel_never_leaks (β : ℚ → ℚ → ℤ → ℤ → ℚ) (k N : ℤ) (c : ℚ)
    (hk0 : 0 ≤ k) (hkN : k ≤ N) (hc0 : 0 < c) (hc1 : c < 1)
    (hnorm : β 0 1 k N = 1) :
    (efficiency_ci β k N c).2.1 ≠ -1 ∧ (efficiency_ci β k N c).2.2 ≠ -1 := by
  by_cases hN : N = 0
  · subst hN
    rw [eff_N0]
    norm_num
  · by_cases hk : k = 0
    · subst hk
      rw [eff_k0 β N c hN]
      have hgt : c < β 0 1 0 N := by rw [hnorm]; exact hc1
      have hb := search_upper_bisect β 0 0 N c hgt (by norm_num)
      rw [triple_low, triple_high]
      constructor
      · norm_num
      · intro h
        rw [h] at hb
        linarith [hb.1]
    · by_cases hkNe : k = N
      · subst hkNe
        rw [eff_kN β k c hN]
        have hgt : c < β 0 1 k k := by rw [hnorm]; exact hc1
        have hb := search_lower_bisect β 1 k k c hgt (by norm_num)
        rw [triple_low, triple_high]
        constructor
        · intro h
          rw [h] at hb
          linarith [hb.1]
        · norm_num
      · rw [eff_general β k N c hk hkNe hN, triple_low, triple_high]
        obtain ⟨hl0, hl1⟩ := brent_low_mem (interval β k N c)
        constructor
        · intro h
          rw [h] at hl0
          linarith
        · rcases interval_eq_or β k N c
              ((brent (interval β k N c) 0 (1/2) 1 (1/1000000000)).xmin)
              hl0 hl1 with h | h
          · rw [h.2]
            intro hcon
            linarith
          · intro hcon
            linarith [h.2.2.1]

/-- Claim C5 witness: instantiation at `β = betaFlat`, `k = 0`, `N = 1`,
`c = 1/2`. -/
theorem sentinel_never_leaks_witness :
    ((0:ℤ) ≤ 0 ∧ (0:ℤ) ≤ 1 ∧ (0:ℚ) < 1/2 ∧ (1:ℚ)/2 < 1 ∧
     betaFlat 0 1 0 1 = 1) ∧
    ((efficiency_ci betaFlat 0 1 (1/2)).2.1 ≠ -1 ∧
     (efficiency_ci betaFlat 0 1 (1/2)).2.2 ≠ -1) :=
  ⟨⟨by norm_num, by norm_num, by norm_num, by norm_num, by simp [betaFlat]⟩,
   sentinel_never_leaks betaFlat 0 1 (1/2) (by norm_num) (by norm_num)
     (by norm_num) (by norm_num) (by simp [betaFlat])⟩


/-- Claim C1 counterexample: the input `(k, N, c) = (1, 2, 1/2)` is valid
(`N > 0`, `0 ≤ k ≤ N`, `0 < c < 1`) and the primitive `betaFlat` satisfies
the stated assumptions (`beta_ab(0,1,k,N) = 1`, all values in `[0,1]`), yet
the returned triple violates `0 ≤ low ≤ mode ≤ high ≤ 1`: every interior
point probed by the minimizer is infeasible, so the final
`high = low + interval(low) = low + 2 > 1`. -/
theorem efficiency_ci_invariant_cex :
    ((0:ℤ) < 2 ∧ (0:ℤ) ≤ 1 ∧ (1:ℤ) ≤ 2 ∧ (0:ℚ) < 1/2 ∧ (1:ℚ)/2 < 1 ∧
     betaFlat 0 1 1 2 = 1 ∧
     (∀ x y k2 N2, 0 ≤ betaFlat x y k2 N2 ∧ betaFlat x y k2 N2 ≤ 1)) ∧
    ¬(0 ≤ (efficiency_ci betaFlat 1 2 (1/2)).2.1 ∧
      (efficiency_ci betaFlat 1 2 (1/2)).2.1 ≤
        (efficiency_ci betaFlat 1 2 (1/2)).1 ∧
      (efficiency_ci betaFlat 1 2 (1/2)).1 ≤
        (efficiency_ci betaFlat 1 2 (1/2)).2.2 ∧
      (efficiency_ci betaFlat 1 2 (1/2)).2.2 ≤ 1) := by
  refine ⟨⟨by norm_num, by norm_num, by norm_num, by norm_num, by norm_num,
    by simp [betaFlat], ?_⟩, ?_⟩
  · intro x y k2 N2
    unfold betaFlat
    split <;> norm_num
  · decide!

/-- Claim C1 (amended): for valid inputs with `N > 0` and a primitive
satisfying `beta_ab(0,1,k,N) = 1` with values in `[0,1]`, the returned
triple satisfies `0 ≤ low ≤ 1`, `0 ≤ mode ≤ 1` and `low ≤ high`; moreover
`high ≤ 1` unless the interval objective is infeasible at the returned
`low`, in which case `high = low + 2`; and in the boundary branches
(`k = 0` or `k = N`) the full chain `0 ≤ low ≤ mode ≤ high ≤ 1` holds.
(The general branch does not guarantee `low ≤ mode ≤ high` or `high ≤ 1`
under these assumptions alone — see the counterexample.) -/
theorem efficiency_ci_invariant_amended (β : ℚ → ℚ → ℤ → ℤ → ℚ)
    (k N : ℤ) (c : ℚ)
    (hN : 0 < N) (hk0 : 0 ≤ k) (hkN : k ≤ N) (hc0 : 0 < c) (hc1 : c < 1)
    (hnorm : β 0 1 k N = 1)
    (hrange : ∀ x y k2 N2, 0 ≤ β x y k2 N2 ∧ β x y k2 N2 ≤ 1) :
    (0 ≤ (efficiency_ci β k N c).2.1 ∧ (efficiency_ci β k N c).2.1 ≤ 1) ∧
    (0 ≤ (efficiency_ci β k N c).1 ∧ (efficiency_ci β k N c).1 ≤ 1) ∧
    (efficiency_ci β k N c).2.1 ≤ (efficiency_ci β k N c).2.2 ∧
    ((efficiency_ci β k N c).2.2 ≤ 1 ∨
      (efficiency_ci β k N c).2.2 = (efficiency_ci β k N c).2.1 + 2) ∧
    ((k = 0 ∨ k = N) →
      (efficiency_ci β k N c).2.1 ≤ (efficiency_ci β k N c).1 ∧
      (efficiency_ci β k N c).1 ≤ (efficiency_ci β k N c).2.2 ∧
      (efficiency_ci β k N c).2.2 ≤ 1) := by
  have hNne : N ≠ 0 := by omega
  by_cases hk : k = 0
  · subst hk
    rw [eff_k0 β N c hNne, triple_low, triple_high]
    have hgt : c < β 0 1 0 N := by rw [hnorm]; exact hc1
    have hb := search_upper_bisect β 0 0 N c hgt (by norm_num)
    exact ⟨⟨le_refl 0, by norm_num⟩, ⟨le_refl 0, by norm_num⟩, hb.1,
      Or.inl hb.2, fun _ => ⟨le_refl 0, hb.1, hb.2⟩⟩
  · by_cases hkNe : k = N
    · subst hkNe
      rw [eff_kN β k c hNne, triple_low, triple_high]
      have hgt : c < β 0 1 k k := by rw [hnorm]; exact hc1
      have hb := search_lower_bisect β 1 k k c hgt (by norm_num)
      exact ⟨⟨hb.1, hb.2⟩, ⟨by norm_num, le_refl 1⟩, hb.2, Or.inl (le_refl 1),
        fun _ => ⟨hb.2, le_refl 1, le_refl 1⟩⟩
    · rw [eff_general β k N c hk hkNe hNne, triple_low, triple_high,
        triple_mode]
      obtain ⟨hl0, hl1⟩ := brent_low_mem (interval β k N c)
      rcases interval_eq_or β k N c
          ((brent (interval β k N c) 0 (1/2) 1 (1/1000000000)).xmin)
          hl0 hl1 with h | h
      · refine ⟨⟨hl0, hl1⟩, mode_bounds k N hk0 hkN hN, ?_, Or.inr ?_, ?_⟩
        · rw [h.2]; linarith
        · rw [h.2]
        · intro hcon
          rcases hcon with hcon | hcon
          · exact absurd hcon hk
          · exact absurd hcon hkNe
      · refine ⟨⟨hl0, hl1⟩, mode_bounds k N hk0 hkN hN,
          by linarith [h.2.2.1], Or.inl (by linarith [h.2.2.2]), ?_⟩
        intro hcon
        rcases hcon with hcon | hcon
        · exact absurd hcon hk
        · exact absurd hcon hkNe

/-- Claim C1 witness (for the amended statement): instantiation at
`β = betaFlat`, `k = 0`, `N = 1`, `c = 1/2`. -/
theorem efficiency_ci_invariant_amended_witness :
    ((0:ℤ) < 1 ∧ (0:ℤ) ≤ 0 ∧ (0:ℤ) ≤ 1 ∧ (0:ℚ) < 1/2 ∧ (1:ℚ)/2 < 1 ∧
     betaFlat 0 1 0 1 = 1 ∧
     (∀ x y k2 N2, 0 ≤ betaFlat x y k2 N2 ∧ betaFlat x y k2 N2 ≤ 1)) ∧
    ((0 ≤ (efficiency_ci betaFlat 0 1 (1/2)).2.1 ∧
      (efficiency_ci betaFlat 0 1 (1/2)).2.1 ≤ 1) ∧
     (0 ≤ (efficiency_ci betaFlat 0 1 (1/2)).1 ∧
      (efficiency_ci betaFlat 0 1 (1/2)).1 ≤ 1) ∧
     (efficiency_ci betaFlat 0 1 (1/2)).2.1 ≤
       (efficiency_ci betaFlat 0 1 (1/2)).2.2 ∧
     ((efficiency_ci betaFlat 0 1 (1/2)).2.2 ≤ 1 ∨
      (efficiency_ci betaFlat 0 1 (1/2)).2.2 =
        (efficiency_ci betaFlat 0 1 (1/2)).2.1 + 2) ∧
     (((0:ℤ) = 0 ∨ (0:ℤ) = 1) →
       (efficiency_ci betaFlat 0 1 (1/2)).2.1 ≤
         (efficiency_ci betaFlat 0 1 (1/2)).1 ∧
       (efficiency_ci betaFlat 0 1 (1/2)).1 ≤
         (efficiency_ci betaFlat 0 1 (1/2)).2.2 ∧
       (efficiency_ci betaFlat 0 1 (1/2)).2.2 ≤ 1)) :=
  ⟨⟨by norm_num, by norm_num, by norm_num, by norm_num, by norm_num,
    by simp [betaFlat],
    by intro x y k2 N2; unfold betaFlat; split <;> norm_num⟩,
   efficiency_ci_invariant_amended betaFlat 0 1 (1/2) (by norm_num)
     (by norm_num) (by norm_num) (by norm_num) (by norm_num)
     (by simp [betaFlat])
     (by intro x y k2 N2; unfold betaFlat; split <;> norm_num)⟩

/-- Claim C8: if `brent` runs out of its 100 iterations without the
convergence test succeeding (`converged = false`), it emits the diagnostic
(`diag = true`, the model of the `printf`) and still returns: the returned
value is the objective at the returned point `*xmin`, and that value is the
best (smallest) over every argument the objective was evaluated at. -/
theorem brent_nonconvergence_soft (f : ℚ → ℚ) (ax bx cx tol : ℚ)
    (h : (brent f ax bx cx tol).converged = false) :
    (brent f ax bx cx tol).diag = true ∧
    (brent f ax bx cx tol).fret = f ((brent f ax bx cx tol).xmin) ∧
    ∀ p ∈ (brent f ax bx cx tol).evals,
      (brent f ax bx cx tol).fret ≤ f p := by
  obtain ⟨h1, h2⟩ := brent_min f ax bx cx tol
  refine ⟨?_, h1, h2⟩
  rw [brent_diag f ax bx cx tol, h]
  rfl

/-- Claim C8 witness: with the degenerate bracket `(1/2, 1/2, 1/2)` and the
negative tolerance `-1` the convergence test can never fire, so the loop
exhausts all 100 iterations and takes the diagnostic exit. -/
theorem brent_nonconvergence_soft_witness :
    (brent (fun t => t) (1/2) (1/2) (1/2) (-1)).converged = false ∧
    ((brent (fun t => t) (1/2) (1/2) (1/2) (-1)).diag = true ∧
     (brent (fun t => t) (1/2) (1/2) (1/2) (-1)).fret =
       (fun t => t) ((brent (fun t => t) (1/2) (1/2) (1/2) (-1)).xmin) ∧
     ∀ p ∈ (brent (fun t => t) (1/2) (1/2) (1/2) (-1)).evals,
       (brent (fun t => t) (1/2) (1/2) (1/2) (-1)).fret ≤ (fun t => t) p) :=
  ⟨by decide!, brent_nonconvergence_soft (fun t => t) (1/2) (1/2) (1/2) (-1)
    (by decide!)⟩

/-- Claim C10: (1) for every objective, bracket `(ax, bx, cx)` with `bx`
between `ax` and `cx`, and tolerance, every argument at which `brent`
evaluates the objective lies in the closed initial bracket
`[min ax cx, max ax cx]`, and so does the returned `*xmin`; (2) in the
general case of `efficiency_ci` (`0 < k < N`), the returned `low` is the
minimizer output, it lies in `[0, 1]`, and every argument the interval
objective is evaluated at during the minimization lies in `[0, 1]` (the
final `interval(low)` evaluation argument is that same `low`). -/
theorem brent_bracket_confinement :
    (∀ (f : ℚ → ℚ) (ax bx cx tol : ℚ), min ax cx ≤ bx → bx ≤ max ax cx →
      (min ax cx ≤ (brent f ax bx cx tol).xmin ∧
       (brent f ax bx cx tol).xmin ≤ max ax cx) ∧
      ∀ p ∈ (brent f ax bx cx tol).evals,
        min ax cx ≤ p ∧ p ≤ max ax cx) ∧
    (∀ (β : ℚ → ℚ → ℤ → ℤ → ℚ) (k N : ℤ) (c : ℚ), 0 < k → k < N →
      (efficiency_ci β k N c).2.1 =
        (brent (interval β k N c) 0 (1/2) 1 (1/1000000000)).xmin ∧
      (0 ≤ (efficiency_ci β k N c).2.1 ∧ (efficiency_ci β k N c).2.1 ≤ 1) ∧
      ∀ p ∈ (brent (interval β k N c) 0 (1/2) 1 (1/1000000000)).evals,
        0 ≤ p ∧ p ≤ 1) := by
  constructor
  · exact brent_mem
  · intro β k N c hk hkN
    have he : (efficiency_ci β k N c).2.1 =
        (brent (interval β k N c) 0 (1/2) 1 (1/1000000000)).xmin := by
      rw [eff_general β k N c (by omega) (by omega) (by omega), triple_low]
    obtain ⟨hl0, hl1⟩ := brent_low_mem (interval β k N c)
    refine ⟨he, ⟨by rw [he]; exact hl0, by rw [he]; exact hl1⟩, ?_⟩
    have hm := (brent_mem (interval β k N c) 0 (1/2) 1 (1/1000000000)
      (by norm_num) (by norm_num)).2
    intro p hp
    have h2 := hm p hp
    rw [min_def, max_def] at h2
    norm_num at h2
    exact h2

/-- Claim C10 witness: instantiation of the general bracket-confinement part
at `f = id`, bracket `(0, 1/2, 1)`, tolerance `1/100`. -/
theorem brent_bracket_confinement_witness :
    (min (0:ℚ) 1 ≤ 1/2 ∧ (1:ℚ)/2 ≤ max (0:ℚ) 1) ∧
    ((min (0:ℚ) 1 ≤ (brent (fun t => t) 0 (1/2) 1 (1/100)).xmin ∧
      (brent (fun t => t) 0 (1/2) 1 (1/100)).xmin ≤ max (0:ℚ) 1) ∧
     ∀ p ∈ (brent (fun t => t) 0 (1/2) 1 (1/100)).evals,
       min (0:ℚ) 1 ≤ p ∧ p ≤ max (0:ℚ) 1) :=
  ⟨⟨by norm_num, by norm_num⟩,
   brent_bracket_confinement.1 (fun t => t) 0 (1/2) 1 (1/100) (by norm_num)
     (by norm_num)⟩

end EffCI
